import Mathlib

/-!
Verification development for `LousyBatchRetarget.py`, a Maya batch
animation-retargeting script.  The Python source is shallowly embedded:

* joint names, DAG paths and attribute names are `String`s;
* `str.split(sep)[-1]` is embedded as `pySplit`/`splitLast` over `List Char`;
* dict comprehensions `{f(j): j for j in joints}` are embedded as
  insertion-ordered association lists (`buildDict`), with the Python
  update-in-place semantics on key collision;
* the Maya scene is a record of query functions (`objExists`,
  `listRelatives -allDescendents`, the set of animated attribute names) plus
  the keyed animation curves `anim : joint → attribute → keys`;
* `copyKey`/`pasteKey -option replace` on one attribute replaces the
  destination attribute's key list with the source's;
* fallible external operations (FBX import/export, `cmds.delete`) are
  driven by explicit outcome fields, and Python exception propagation is
  `Except String`.
-/

namespace LousyBatchRetarget

/-! ## Python string splitting

`s.split(sep)` for a one-character separator, keeping empty groups, and
`s.split(sep)[-1]` (the list is never empty, so `[-1]` is total). -/

def pySplit (sep : Char) : List Char → List (List Char)
  | [] => [[]]
  | c :: rest =>
    match pySplit sep rest with
    | [] => [[]]
    | g :: gs => if c = sep then [] :: g :: gs else (c :: g) :: gs

def splitLast (sep : Char) (s : List Char) : List Char :=
  (pySplit sep s).getLastD []

/-- `remove_namespace` (line 108): `joint_name.split(":")[-1]`. -/
def remove_namespace (joint_name : String) : String :=
  String.mk (splitLast ':' joint_name.data)

/-- The match key of `transfer_animation` (lines 87–88):
`cmds.ls(j, long=True)[0].split("|")[-1]`.  Joint arguments are modelled as
their long (full-path) names, so `cmds.ls(j, long=True)[0]` is `j` itself. -/
def localNameKey (j : String) : String :=
  String.mk (splitLast '|' j.data)

/-! ## Python dict comprehensions

`{f(j): j for j in joints}` iterates `joints` in order and assigns
`d[f(j)] = j`.  Assigning to an existing key updates its value in place
(the key keeps its original position); a new key is appended.  Iteration
over `d.items()` follows that insertion order. -/

def insertAssoc {κ α : Type} [DecidableEq κ] (k : κ) (v : α) :
    List (κ × α) → List (κ × α)
  | [] => [(k, v)]
  | (k', v') :: rest =>
    if k' = k then (k', v) :: rest else (k', v') :: insertAssoc k v rest

def buildDict {κ α : Type} [DecidableEq κ] (f : α → κ) (l : List α) :
    List (κ × α) :=
  l.foldl (fun d j => insertAssoc (f j) j d) []

def alookup {κ α : Type} [DecidableEq κ] : List (κ × α) → κ → Option α
  | [], _ => none
  | e :: rest, k => if e.1 = k then some e.2 else alookup rest k

/-! ## Scene model and animation transfer

The Maya scene is modelled by its query surface: `objExists`,
`listRelatives -allDescendents -type joint -fullPath` (the `descendants`
field), the finite set of animated attribute names carried by the scene's
animation curves (`attrs`), and the keyed curves themselves
(`anim j a` = list of `(time, value)` keys of joint `j` on attribute `a`).
Joint arguments are identified with their long names, so
`cmds.ls(j, long=True)[0] = j`.  `cmds.copyKey` on one attribute followed by
`cmds.pasteKey -option replace` replaces the destination attribute's key
list with the source's; copying a whole node copies every keyed attribute
and pasting replaces exactly those attributes on the destination. -/

structure Scene where
  objExists : String → Bool
  descendants : String → List String
  attrs : List String
  anim : String → String → List (Int × Int)

/-- The six tracked channels of the per-channel loop (lines 99 and 128). -/
def sixChannels : List String :=
  ["translateX", "translateY", "translateZ", "rotateX", "rotateY", "rotateZ"]

/-- `cmds.keyframe(j, attribute=a, query=True, keyframeCount=True)`. -/
def keyframeCountAttr (sc : Scene) (j a : String) : Nat :=
  (sc.anim j a).length

/-- `cmds.keyframe(j, query=True, keyframeCount=True)` with no attribute:
the total key count over all of the node's animated channels. -/
def keyframeCountAll (sc : Scene) (j : String) : Nat :=
  (sc.attrs.map (fun a => (sc.anim j a).length)).sum

/-- Replace the key list of one channel of one joint. -/
def setAnim (sc : Scene) (j a : String) (ks : List (Int × Int)) : Scene :=
  { sc with anim := fun j' a' => if j' = j ∧ a' = a then ks else sc.anim j' a' }

/-- `cmds.copyKey(src); cmds.pasteKey(dst, option="replace")`: every keyed
channel of `src` replaces the same-named channel of `dst`; channels on
which `src` has no keys are left untouched on `dst` (lines 92–93). -/
def copyAllKeys (sc : Scene) (src dst : String) : Scene :=
  { sc with anim := fun j a =>
      if j = dst ∧ a ∈ sc.attrs ∧ sc.anim src a ≠ [] then sc.anim src a
      else sc.anim j a }

/-- Body of the innermost loop (lines 100–102 and 129–131): copy one
attribute if the source has at least one key on it, else do nothing. -/
def transferAttr (sc : Scene) (src dst a : String) : Scene :=
  if 0 < keyframeCountAttr sc src a then setAnim sc dst a (sc.anim src a)
  else sc

/-- `for attr in [...]:` loop over the six channels for one matched pair. -/
def transferAttrs (sc : Scene) (src dst : String) : List String → Scene
  | [] => sc
  | a :: rest => transferAttrs (transferAttr sc src dst a) src dst rest

def transferJoint (sc : Scene) (src dst : String) : Scene :=
  transferAttrs sc src dst sixChannels

/-- `for joint_name, imported_joint in imported_dict.items(): ...` -/
def transferPairs (sc : Scene) : List (String × String) → Scene
  | [] => sc
  | (src, dst) :: rest => transferPairs (transferJoint sc src dst) rest

/-- The matched pairs of one transfer: iterate the source index in
insertion order and keep the keys present in the destination index. -/
def matchedPairs (src_dict rig_dict : List (String × String)) :
    List (String × String) :=
  src_dict.filterMap (fun e => (alookup rig_dict e.1).map (fun d => (e.2, d)))

/-- `transfer_animation` (lines 70–105): existence guard, joint inventories
(descendants plus the root appended last), plain-name indices, the
root-motion composite copy, then the per-channel loop. -/
def transfer_animation (sc : Scene) (imported_root rig_root : String) :
    Scene :=
  if ¬ (sc.objExists imported_root ∧ sc.objExists rig_root) then sc
  else
    let imported_joints := sc.descendants imported_root ++ [imported_root]
    let rig_joints := sc.descendants rig_root ++ [rig_root]
    let imported_dict := buildDict localNameKey imported_joints
    let rig_dict := buildDict localNameKey rig_joints
    let sc1 :=
      if 0 < keyframeCountAll sc imported_root then
        copyAllKeys sc imported_root rig_root
      else sc
    transferPairs sc1 (matchedPairs imported_dict rig_dict)

/-- `transfer_animation_ignore_namespace` (lines 112–133): no existence
guard, no root-motion copy, namespace-stripped indices. -/
def transfer_animation_ignore_namespace (sc : Scene)
    (source_root target_root : String) : Scene :=
  let imported_joints := sc.descendants source_root ++ [source_root]
  let rig_joints := sc.descendants target_root ++ [target_root]
  let imported_dict := buildDict remove_namespace imported_joints
  let rig_dict := buildDict remove_namespace rig_joints
  transferPairs sc (matchedPairs imported_dict rig_dict)

/-- The joint inventory of one transfer call: all descendant joints of the
root (long names) with the root itself appended last (lines 78–82 and
116–120). -/
def jointInventory (sc : Scene) (root : String) : List String :=
  sc.descendants root ++ [root]

/-- Modelled from the spec (§4.2): the match key under namespace
normalization is "the local name with any leading namespace segment
(delimited by a single separator token) stripped".  Used only to compare
the spec's key rule with the code's `remove_namespace`. -/
def afterFirstSep (sep : Char) : List Char → List Char
  | [] => []
  | c :: rest => if c = sep then rest else afterFirstSep sep rest

def specMatchKeyTrue (j : String) : String :=
  let loc := splitLast '|' j.data
  if ':' ∈ loc then String.mk (afterFirstSep ':' loc) else String.mk loc

/-! ## Import-diff root detection

`get_new_root_joint` works on the scene's joint list; a joint is a name
plus the result of `cmds.listRelatives(j, parent=True)`.  The Python code
enumerates `list(set(after) - set(before))` in unspecified set order; the
embedding enumerates the same set in `after`-list order. -/

structure SceneJoint where
  name : String
  parentName : Option String

/-- `cmds.ls(type="joint")`. -/
def lsJoints (joints : List SceneJoint) : List String :=
  joints.map (fun j => j.name)

/-- `cmds.listRelatives(j, parent=True)` for a joint name. -/
def parentOf (joints : List SceneJoint) (j : String) : Option String :=
  (joints.find? (fun n => n.name = j)).bind (fun n => n.parentName)

/-- `get_new_root_joint` (lines 13–30): diff the joint inventories, warn
and return `None` when no new joints appeared; otherwise return the first
new joint that has no parent at all, or warn and return `None` when every
new joint has a parent. -/
def get_new_root_joint (before_import : List String)
    (joints : List SceneJoint) : Option String :=
  let after_import := lsJoints joints
  let new_joints := after_import.filter (fun j => ¬ before_import.contains j)
  if new_joints.isEmpty then none
  else new_joints.find? (fun j => parentOf joints j = none)

/-- The new joints detected by the diff (line 18). -/
def newJointsOf (before_import : List String) (joints : List SceneJoint) :
    List String :=
  (lsJoints joints).filter (fun j => ¬ before_import.contains j)

/-- Modelled from the spec (§4.1): "among the new joints, the root is the
one with no parent in that difference set" — a new joint whose parent, if
any, is not itself a new joint.  Used only to compare the spec's root rule
with the code's parent-less test. -/
def specRootCandidate (before_import : List String)
    (joints : List SceneJoint) (j : String) : Bool :=
  let new_joints := newJointsOf before_import joints
  new_joints.contains j &&
    (match parentOf joints j with
     | none => true
     | some p => ¬ new_joints.contains p)

/-! ## Skeleton deletion by stored UUID

`delete_imported_skeleton` works on the id-bearing nodes of the scene.
`cmds.delete` cascades over the node's subtree; whether the external
delete actually removes the node is the collaborator's behaviour, exposed
as `deleteWorks` because the code re-checks existence afterwards. -/

structure DagNode where
  name : String
  parentName : Option String
  uuid : String
  locked : Bool
  deriving DecidableEq

structure DelWorld where
  nodes : List DagNode
  deleteWorks : Bool

def nodeParent (nodes : List DagNode) (x : String) : Option String :=
  (nodes.find? (fun n => n.name = x)).bind (fun n => n.parentName)

def ancestors (nodes : List DagNode) : Nat → String → List String
  | 0, _ => []
  | fuel + 1, x =>
    match nodeParent nodes x with
    | none => []
    | some p => p :: ancestors nodes fuel p

def inSubtree (nodes : List DagNode) (root x : String) : Bool :=
  x = root || (ancestors nodes nodes.length x).contains root

/-- `cmds.delete(root)`: removes the node and its subtree when the external
delete succeeds, else leaves the scene as is. -/
def deleteNode (w : DelWorld) (root : String) : DelWorld :=
  if w.deleteWorks then
    { w with nodes := w.nodes.filter (fun n => ¬ inSubtree w.nodes root n.name) }
  else w

/-- `cmds.objExists`. -/
def objExistsD (w : DelWorld) (x : String) : Bool :=
  w.nodes.any (fun n => n.name = x)

/-- `cmds.lockNode(x, lock=False)`. -/
def unlockNode (w : DelWorld) (x : String) : DelWorld :=
  { w with nodes := w.nodes.map (fun n =>
      if n.name = x then { n with locked := false } else n) }

/-- `cmds.lockNode(x, query=True, lock=True)[0]`. -/
def lockQuery (w : DelWorld) (x : String) : Bool :=
  ((w.nodes.find? (fun n => n.name = x)).map (fun n => n.locked)).getD false

/-- The scan of lines 219–225: find the node carrying the root UUID. -/
def findByUuid (w : DelWorld) (u : String) : Option DagNode :=
  w.nodes.find? (fun n => n.uuid = u)

inductive DelOutcome
  | noUuids
  | rootNotFound
  | deleted
  | stillExists
  deriving DecidableEq

structure DelState where
  world : DelWorld
  imported_joint_uuids : List String

/-- `delete_imported_skeleton` (lines 201–253): bail out when no ids are
stored; resolve only the first stored id to a live node (early return —
before the final `clear()` — when none matches); unlock the node if it is
locked; delete it; re-check existence and report (not raise) when it
survived; clear the id list. -/
def delete_imported_skeleton (st : DelState) : DelState × DelOutcome :=
  match st.imported_joint_uuids with
  | [] => (st, DelOutcome.noUuids)
  | root_uuid :: _ =>
    match findByUuid st.world root_uuid with
    | none => (st, DelOutcome.rootNotFound)
    | some nd =>
      let w1 := if lockQuery st.world nd.name then unlockNode st.world nd.name
                else st.world
      let w2 := deleteNode w1 nd.name
      if objExistsD w2 nd.name then
        ({ world := w2, imported_joint_uuids := [] }, DelOutcome.stillExists)
      else
        ({ world := w2, imported_joint_uuids := [] }, DelOutcome.deleted)

/-! ## Export and the batch driver

`export_fbx_animation` and `batch_process_fbx` mix pure path arithmetic
(embedded exactly: `os.path.join`, `os.path.splitext`, the backslash
replacement, the case-insensitive `.fbx` filter) with external operations
whose outcomes are environment fields.  Python exception propagation is
`Except String`: an `Except.error` is an exception crossing that
function's boundary.  Regions the Python wraps in `try`/`except` cannot
produce an `error` — `os.makedirs` and the `FBXExport` call in the export
function, and the whole body of `delete_imported_skeleton`. -/

/-- `os.path.join(a, b)` on POSIX. -/
def pyJoin (a b : String) : String :=
  if b.data.head? = some '/' then b
  else if a = "" then b
  else if a.data.getLast? = some '/' then a ++ b
  else a ++ "/" ++ b

/-- `s.replace("\\", "/")`. -/
def replaceBackslashes (s : String) : String :=
  String.mk (s.data.map (fun c => if c = '\\' then '/' else c))

/-- `os.path.splitext(name)[0]` for a bare file name: everything before
the last dot, unless only dots precede that dot. -/
def splitextRootData (s : List Char) : List Char :=
  let root := s.take (s.length - (splitLast '.' s).length - 1)
  if '.' ∈ s ∧ root.any (fun c => c ≠ '.') then root else s

def splitextRoot (s : String) : String :=
  String.mk (splitextRootData s.data)

/-- `f.lower().endswith('.fbx')` (line 273). -/
def lowerEndsWithFbx (s : String) : Bool :=
  List.isSuffixOf ".fbx".data (s.data.map (fun c => c.toLower))

structure ExpEnv where
  rigExists : Bool
  exportJoints : List String
  folderExists : Bool
  makedirsRaises : Bool
  setupRaises : Bool
  fbxExportRaises : Bool
  abspathOf : String → String

structure ExpResult where
  wrote : Option String
  madeDir : Bool
  warned : Bool
  deriving DecidableEq

/-- `export_fbx_animation` (lines 137–197): guard on the rig root and its
joints; `os.path.abspath`; create the output folder when absent
(`os.makedirs` failure is caught: warn and return); build the output path
`os.path.join(folder, prefix + animation_name + suffix + ".fbx")` with
backslashes replaced; plugin load and FBX option setup (uncaught region);
`FBXExport` wrapped in `try`/`except` (caught: warn). -/
def export_fbx_animation (env : ExpEnv)
    (rig_root output_fbx_folder animation_name pre suf : String) :
    Except String ExpResult :=
  if ¬ env.rigExists then Except.ok ⟨none, false, true⟩
  else if env.exportJoints.isEmpty then Except.ok ⟨none, false, true⟩
  else if !env.folderExists && env.makedirsRaises then
    Except.ok ⟨none, true, true⟩
  else if env.setupRaises then Except.error "export setup failed"
  else if env.fbxExportRaises then Except.ok ⟨none, !env.folderExists, true⟩
  else Except.ok ⟨some (replaceBackslashes (pyJoin
    (env.abspathOf output_fbx_folder)
    (pre ++ animation_name ++ suf ++ ".fbx"))), !env.folderExists, false⟩

structure FileEnv where
  importOutcome : Except String (Option String)
  transfer1Raises : Option String
  transfer2Raises : Option String
  exp : ExpEnv
  deleteBodyRaises : Bool

structure BatchEnv where
  sourceFolderExists : Bool
  listing : List String
  behav : String → FileEnv

/-- One iteration of the batch loop (lines 279–291): import (exceptions
from the MEL import propagate; a missing file or undetected root yields
`none` and the file is skipped); the two transfers (uncaught region);
export (its own caught/uncaught split); deletion (whole body caught inside
`delete_imported_skeleton`, hence never an `error` regardless of
`deleteBodyRaises`). -/
def processFile (fe : FileEnv)
    (target_rig_root export_folder animation_name pre suf : String) :
    Except String (Option ExpResult) :=
  match fe.importOutcome with
  | Except.error e => Except.error e
  | Except.ok none => Except.ok none
  | Except.ok (some _) =>
    match fe.transfer1Raises with
    | some e => Except.error e
    | none =>
      match fe.transfer2Raises with
      | some e => Except.error e
      | none =>
        match export_fbx_animation fe.exp target_rig_root export_folder
            animation_name pre suf with
        | Except.error e => Except.error e
        | Except.ok r => Except.ok (some r)

def runFbxFiles (env : BatchEnv)
    (export_folder target_rig_root pre suf : String) :
    List String → Except String (List (String × Option ExpResult))
  | [] => Except.ok []
  | f :: rest =>
    match processFile (env.behav f) target_rig_root export_folder
        (splitextRoot f) pre suf with
    | Except.error e => Except.error e
    | Except.ok r =>
      match runFbxFiles env export_folder target_rig_root pre suf rest with
      | Except.error e => Except.error e
      | Except.ok l => Except.ok ((f, r) :: l)

/-- `batch_process_fbx` (lines 260–293): missing source folder or an empty
case-insensitive `.fbx` listing end the batch early with nothing
processed; otherwise each file is processed in listing order, with
`animation_name = os.path.splitext(f)[0]`.  There is no `try`/`except`
around the loop body.  The `ok` value pairs each file whose iteration
completed with its export outcome (`none` = skipped for lack of an
imported skeleton). -/
def batch_process_fbx (env : BatchEnv)
    (export_folder source_rig_root target_rig_root : String)
    (pre : String := "Anim_") (suf : String := "_Final") :
    Except String (List (String × Option ExpResult)) :=
  if ¬ env.sourceFolderExists then Except.ok []
  else
    let fbx_files := env.listing.filter (fun f => lowerEndsWithFbx f)
    if fbx_files.isEmpty then Except.ok []
    else runFbxFiles env export_folder target_rig_root pre suf fbx_files

/-! ## Concrete example data used by witnesses and counterexamples -/

/-- A scene where the only new joint (`B`) is parented under a
pre-existing joint (`A`). -/
def importDiffScene : List SceneJoint :=
  [⟨"A", none⟩, ⟨"B", some "A"⟩]

/-- A scene containing the imported root but not the rig root. -/
def guardScene : Scene where
  objExists := fun n => n = "Imp"
  descendants := fun _ => []
  attrs := ["translateX"]
  anim := fun j a => if j = "Imp" ∧ a = "translateX" then [(1, 5)] else []

/-- Imported root `Imp` carrying keys on a channel outside the six tracked
ones, next to rig root `Rig`. -/
def rootMotionScene : Scene where
  objExists := fun n => n = "Imp" || n = "Rig"
  descendants := fun _ => []
  attrs := ["customAttr"]
  anim := fun j a => if j = "Imp" ∧ a = "customAttr" then [(0, 7)] else []

/-- Source hierarchy `S ⊢ S|ns:H` with no keys on the matched joint, next
to target hierarchy `T ⊢ T|ns:H` whose matched joint carries keys. -/
def skipScene : Scene where
  objExists := fun _ => true
  descendants := fun r =>
    if r = "S" then ["S|ns:H"] else if r = "T" then ["T|ns:H"] else []
  attrs := ["translateX"]
  anim := fun j a => if j = "T|ns:H" ∧ a = "translateX" then [(3, 3)] else []

/-- An export environment in which every external operation succeeds. -/
def okExpEnv : ExpEnv :=
  ⟨true, ["T"], true, false, false, false, fun s => s⟩

/-- Like `okExpEnv` but the output folder does not exist yet. -/
def pathExpEnv : ExpEnv :=
  ⟨true, ["T"], false, false, false, false, fun s => s⟩

/-- A file whose `transfer_animation` call raises. -/
def boomFileEnv : FileEnv :=
  ⟨Except.ok (some "ImpRoot"), some "boom", none, okExpEnv, false⟩

/-- A file whose whole pipeline succeeds. -/
def fineFileEnv : FileEnv :=
  ⟨Except.ok (some "ImpRoot"), none, none, okExpEnv, false⟩

/-- A batch whose first file fails in the transfer stage. -/
def abortEnv : BatchEnv :=
  ⟨true, ["a.fbx", "b.fbx"],
    fun f => if f = "a.fbx" then boomFileEnv else fineFileEnv⟩

/-- A healthy batch with one non-fbx file in the listing. -/
def okBatchEnv : BatchEnv :=
  ⟨true, ["walk.fbx", "run.FBX", "notes.txt"], fun _ => fineFileEnv⟩

/-- A world whose stored root id matches no live node. -/
def staleWorld : DelWorld :=
  ⟨[⟨"Root", none, "u-root", false⟩], true⟩

def staleState : DelState :=
  ⟨staleWorld, ["u-missing"]⟩

/-- A two-node skeleton whose locked root carries the first stored id. -/
def delWorld : DelWorld :=
  ⟨[⟨"Root", none, "u1", true⟩, ⟨"Child", some "Root", "u2", false⟩], true⟩

/-- Source hierarchy `S ⊢ S|ns:H` carrying keys, next to target hierarchy
`T ⊢ T|ns:H`. -/
def idemScene : Scene where
  objExists := fun _ => true
  descendants := fun r =>
    if r = "S" then ["S|ns:H"] else if r = "T" then ["T|ns:H"] else []
  attrs := ["translateX"]
  anim := fun j a => if j = "S|ns:H" ∧ a = "translateX" then [(1, 9)] else []

/-! ## Theorems -/

theorem pySplit_cons (sep c : Char) (t : List Char) :
    pySplit sep (c :: t) =
      match pySplit sep t with
      | [] => [[]]
      | g :: gs => if c = sep then [] :: g :: gs else (c :: g) :: gs := rfl

theorem pySplit_ne_nil (sep : Char) (s : List Char) : pySplit sep s ≠ [] := by
  cases s with
  | nil => simp [pySplit]
  | cons c rest =>
    rw [pySplit_cons]
    cases h : pySplit sep rest with
    | nil => simp
    | cons g gs => by_cases hc : c = sep <;> simp [hc]

theorem pySplit_of_not_mem (sep : Char) (s : List Char) (h : sep ∉ s) :
    pySplit sep s = [s] := by
  induction s with
  | nil => rfl
  | cons c rest ih =>
    simp only [List.mem_cons, not_or] at h
    rw [pySplit_cons, ih h.2]
    simp [Ne.symm h.1]

theorem splitLast_of_not_mem (sep : Char) (s : List Char) (h : sep ∉ s) :
    splitLast sep s = s := by
  simp [splitLast, pySplit_of_not_mem sep s h]

theorem pySplit_length_pos_of_mem (sep : Char) (s : List Char) (h : sep ∈ s) :
    2 ≤ (pySplit sep s).length := by
  induction s with
  | nil => simp at h
  | cons c rest ih =>
    rw [pySplit_cons]
    cases hr : pySplit sep rest with
    | nil => exact absurd hr (pySplit_ne_nil sep rest)
    | cons g gs =>
      by_cases hc : c = sep
      · simp [hc]
      · simp only [List.mem_cons] at h
        rcases h with h | h
        · exact absurd h.symm hc
        · have := ih h
          rw [hr] at this
          simp at this
          simp [hc, this]

theorem getLastD_cons_of_ne_nil {α : Type} (a : α) (l : List α) (d : α)
    (h : l ≠ []) : (a :: l).getLastD d = l.getLastD d := by
  cases l with
  | nil => exact absurd rfl h
  | cons b t => simp [List.getLastD]

theorem splitLast_sep_cons (sep : Char) (ys : List Char) :
    splitLast sep (sep :: ys) = splitLast sep ys := by
  unfold splitLast
  rw [pySplit_cons]
  cases hr : pySplit sep ys with
  | nil => exact absurd hr (pySplit_ne_nil sep ys)
  | cons g gs => simp

theorem splitLast_cons_of_mem (sep x : Char) (t : List Char) (h : sep ∈ t) :
    splitLast sep (x :: t) = splitLast sep t := by
  unfold splitLast
  rw [pySplit_cons]
  cases hr : pySplit sep t with
  | nil => exact absurd hr (pySplit_ne_nil sep t)
  | cons g gs =>
    have hlen := pySplit_length_pos_of_mem sep t h
    rw [hr] at hlen
    simp at hlen
    have hgs : gs ≠ [] := by
      cases gs with
      | nil => simp at hlen
      | cons _ _ => simp
    by_cases hc : x = sep
    · simp only [hc, if_pos rfl]
      exact getLastD_cons_of_ne_nil _ _ _ (by simp)
    · simp only [if_neg hc]
      rw [getLastD_cons_of_ne_nil _ _ _ hgs, getLastD_cons_of_ne_nil g gs [] hgs]

theorem splitLast_append_sep (sep : Char) (xs ys : List Char) :
    splitLast sep (xs ++ sep :: ys) = splitLast sep ys := by
  induction xs with
  | nil => exact splitLast_sep_cons sep ys
  | cons x xs ih =>
    have hmem : sep ∈ xs ++ sep :: ys := by simp
    rw [List.cons_append, splitLast_cons_of_mem sep x _ hmem]
    exact ih

theorem alookup_insertAssoc {κ α : Type} [DecidableEq κ] (d : List (κ × α))
    (k k' : κ) (v : α) :
    alookup (insertAssoc k v d) k' = if k' = k then some v else alookup d k' := by
  induction d with
  | nil =>
    by_cases h : k' = k
    · subst h; simp [insertAssoc, alookup]
    · have h2 : ¬ k = k' := fun hc => h hc.symm
      simp [insertAssoc, alookup, h, h2]
  | cons e rest ih =>
    obtain ⟨ek, ev⟩ := e
    by_cases hek : ek = k
    · subst hek
      by_cases h : k' = ek
      · subst h; simp [insertAssoc, alookup]
      · have h2 : ¬ ek = k' := fun hc => h hc.symm
        simp [insertAssoc, alookup, h, h2]
    · simp only [insertAssoc, if_neg hek]
      by_cases h : ek = k'
      · subst h
        simp [alookup, hek]
      · simp [alookup, h, ih]

theorem keys_insertAssoc {κ α : Type} [DecidableEq κ] (d : List (κ × α))
    (k : κ) (v : α) :
    (insertAssoc k v d).map Prod.fst =
      if k ∈ d.map Prod.fst then d.map Prod.fst else d.map Prod.fst ++ [k] := by
  induction d with
  | nil => simp [insertAssoc]
  | cons e rest ih =>
    obtain ⟨ek, ev⟩ := e
    by_cases hek : ek = k
    · subst hek
      simp [insertAssoc]
    · have : ¬ k = ek := fun hc => hek hc.symm
      simp only [insertAssoc, if_neg hek, List.map_cons, List.mem_cons, this,
        false_or, ih]
      by_cases hmem : k ∈ rest.map Prod.fst <;> simp [hmem]

theorem mem_insertAssoc {κ α : Type} [DecidableEq κ] (d : List (κ × α))
    (k : κ) (v : α) (e : κ × α) :
    e ∈ insertAssoc k v d → e = (k, v) ∨ e ∈ d := by
  induction d with
  | nil => intro he; simpa [insertAssoc] using he
  | cons e' rest ih =>
    intro he
    obtain ⟨ek, ev⟩ := e'
    by_cases hek : ek = k
    · subst hek
      simp only [insertAssoc, if_pos rfl, if_true, eq_self_iff_true,
        List.mem_cons] at he
      rcases he with he | he
      · exact Or.inl he
      · exact Or.inr (List.mem_cons_of_mem _ he)
    · simp only [insertAssoc, if_neg hek, List.mem_cons] at he
      rcases he with he | he
      · exact Or.inr (by simp [he])
      · rcases ih he with h | h
        · exact Or.inl h
        · exact Or.inr (List.mem_cons_of_mem _ h)

theorem mem_foldl_insertAssoc {κ α : Type} [DecidableEq κ] (f : α → κ)
    (l : List α) : ∀ (d : List (κ × α)) (e : κ × α),
    e ∈ l.foldl (fun d j => insertAssoc (f j) j d) d →
    (e.1 = f e.2 ∧ e.2 ∈ l) ∨ e ∈ d := by
  induction l with
  | nil => intro d e he; exact Or.inr he
  | cons x xs ih =>
    intro d e he
    rcases ih (insertAssoc (f x) x d) e he with h | h
    · exact Or.inl ⟨h.1, List.mem_cons_of_mem _ h.2⟩
    · rcases mem_insertAssoc d (f x) x e h with h' | h'
      · subst h'
        exact Or.inl ⟨rfl, by simp⟩
      · exact Or.inr h'

/-- Every entry of `buildDict f l` pairs a value from `l` with its own key. -/
theorem buildDict_entry {κ α : Type} [DecidableEq κ] (f : α → κ) (l : List α) :
    ∀ e ∈ buildDict f l, e.1 = f e.2 ∧ e.2 ∈ l := by
  intro e he
  rcases mem_foldl_insertAssoc f l [] e he with h | h
  · exact h
  · simp at h

theorem nodup_keys_foldl_insertAssoc {κ α : Type} [DecidableEq κ] (f : α → κ)
    (l : List α) : ∀ d : List (κ × α), (d.map Prod.fst).Nodup →
    ((l.foldl (fun d j => insertAssoc (f j) j d) d).map Prod.fst).Nodup := by
  induction l with
  | nil => intro d hd; exact hd
  | cons x xs ih =>
    intro d hd
    refine ih (insertAssoc (f x) x d) ?_
    rw [keys_insertAssoc]
    by_cases hmem : f x ∈ d.map Prod.fst
    · simpa [hmem] using hd
    · simp only [if_neg hmem]
      exact List.Nodup.append hd (List.nodup_singleton _)
        (by simpa [List.disjoint_singleton] using hmem)

/-- The keys of one index snapshot are pairwise distinct. -/
theorem buildDict_keys_nodup {κ α : Type} [DecidableEq κ] (f : α → κ)
    (l : List α) : ((buildDict f l).map Prod.fst).Nodup :=
  nodup_keys_foldl_insertAssoc f l [] (by simp)

theorem alookup_foldl_insertAssoc {κ α : Type} [DecidableEq κ] (f : α → κ)
    (l : List α) (k : κ) : ∀ d : List (κ × α),
    alookup (l.foldl (fun d j => insertAssoc (f j) j d) d) k =
      match (l.filter (fun x => f x = k)).getLast? with
      | some v => some v
      | none => alookup d k := by
  induction l with
  | nil => intro d; simp
  | cons x xs ih =>
    intro d
    rw [List.foldl_cons, ih (insertAssoc (f x) x d)]
    by_cases hx : f x = k
    · rw [List.filter_cons_of_pos (by simpa using hx)]
      cases hf : (xs.filter (fun x => f x = k)).getLast? with
      | some v =>
        rw [List.getLast?_cons, hf]
        simp
      | none =>
        rw [List.getLast?_eq_none_iff] at hf
        rw [hf]
        simp [alookup_insertAssoc, hx.symm]
    · rw [List.filter_cons_of_neg (by simpa using hx)]
      cases hf : (xs.filter (fun x => f x = k)).getLast? with
      | some v => simp
      | none =>
        have : ¬ k = f x := fun hc => hx hc.symm
        simp [alookup_insertAssoc, this]

/-- Looking a match key up in the index returns the joint seen last during
traversal among those with that key (last-write-wins). -/
theorem alookup_buildDict {κ α : Type} [DecidableEq κ] (f : α → κ)
    (l : List α) (k : κ) :
    alookup (buildDict f l) k = (l.filter (fun x => f x = k)).getLast? := by
  rw [buildDict, alookup_foldl_insertAssoc]
  cases hf : (l.filter (fun x => f x = k)).getLast? with
  | some v => simp
  | none => simp [alookup]

theorem alookup_buildDict_mem {κ α : Type} [DecidableEq κ] (f : α → κ)
    (l : List α) (k : κ) (v : α) (h : alookup (buildDict f l) k = some v) :
    f v = k ∧ v ∈ l := by
  rw [alookup_buildDict] at h
  have hmem : v ∈ l.filter (fun x => f x = k) := by
    rcases List.mem_getLast?_eq_getLast (show v ∈ _ from h) with ⟨hne, hv⟩
    rw [hv]
    exact List.getLast_mem hne
  have := List.of_mem_filter hmem
  exact ⟨by simpa using this, List.mem_of_mem_filter hmem⟩

/-! ### Properties of the transfer loops -/

theorem transferAttr_descendants (sc : Scene) (s d a : String) :
    (transferAttr sc s d a).descendants = sc.descendants := by
  unfold transferAttr setAnim
  split <;> rfl

theorem transferAttrs_descendants (sc : Scene) (s d : String)
    (l : List String) :
    (transferAttrs sc s d l).descendants = sc.descendants := by
  induction l generalizing sc with
  | nil => rfl
  | cons b rest ih => rw [transferAttrs, ih, transferAttr_descendants]

theorem transferPairs_descendants (sc : Scene) (ps : List (String × String)) :
    (transferPairs sc ps).descendants = sc.descendants := by
  induction ps generalizing sc with
  | nil => rfl
  | cons p rest ih =>
    obtain ⟨s, d⟩ := p
    rw [transferPairs, ih, transferJoint, transferAttrs_descendants]

theorem transferAttr_attrs (sc : Scene) (s d a : String) :
    (transferAttr sc s d a).attrs = sc.attrs := by
  unfold transferAttr setAnim
  split <;> rfl

theorem transferAttrs_attrs (sc : Scene) (s d : String) (l : List String) :
    (transferAttrs sc s d l).attrs = sc.attrs := by
  induction l generalizing sc with
  | nil => rfl
  | cons b rest ih => rw [transferAttrs, ih, transferAttr_attrs]

theorem transferPairs_attrs (sc : Scene) (ps : List (String × String)) :
    (transferPairs sc ps).attrs = sc.attrs := by
  induction ps generalizing sc with
  | nil => rfl
  | cons p rest ih =>
    obtain ⟨s, d⟩ := p
    rw [transferPairs, ih, transferJoint, transferAttrs_attrs]

theorem transferAttr_anim (sc : Scene) (s d b j a : String) :
    (transferAttr sc s d b).anim j a =
      if j = d ∧ a = b ∧ sc.anim s b ≠ [] then sc.anim s b
      else sc.anim j a := by
  unfold transferAttr keyframeCountAttr setAnim
  by_cases hk : sc.anim s b = []
  · simp [hk]
  · have : 0 < (sc.anim s b).length := List.length_pos.mpr hk
    simp only [if_pos this]
    by_cases hj : j = d <;> by_cases ha : a = b <;> simp [hj, ha, hk]

/-- What one matched pair's channel loop does to each channel: the
destination's channels named in `l` on which the source has keys are
replaced by the source's keys, everything else is untouched. -/
theorem transferAttrs_anim (s d : String) (l : List String) (hl : l.Nodup) :
    ∀ (sc : Scene) (j a : String),
    (transferAttrs sc s d l).anim j a =
      if j = d ∧ a ∈ l ∧ sc.anim s a ≠ [] then sc.anim s a
      else sc.anim j a := by
  induction l with
  | nil => intro sc j a; simp [transferAttrs]
  | cons b rest ih =>
    intro sc j a
    have hb : b ∉ rest := (List.nodup_cons.mp hl).1
    have hrest : rest.Nodup := (List.nodup_cons.mp hl).2
    rw [transferAttrs, ih hrest]
    by_cases hab : a = b
    · subst hab
      have hna : a ∉ rest := hb
      simp only [transferAttr_anim]
      by_cases hj : j = d <;> by_cases hk : sc.anim s a = [] <;>
        simp [hj, hna, hk]
    · have h1 : (transferAttr sc s d b).anim s a = sc.anim s a := by
        rw [transferAttr_anim]
        simp [hab]
      have h2 : (transferAttr sc s d b).anim j a = sc.anim j a := by
        rw [transferAttr_anim]
        simp [hab]
      rw [h1, h2]
      by_cases hmem : a ∈ rest <;> simp [hmem, hab]

theorem sixChannels_nodup : sixChannels.Nodup := by decide

theorem transferJoint_anim (sc : Scene) (s d j a : String) :
    (transferJoint sc s d).anim j a =
      if j = d ∧ a ∈ sixChannels ∧ sc.anim s a ≠ [] then sc.anim s a
      else sc.anim j a := by
  rw [transferJoint]
  exact transferAttrs_anim s d sixChannels sixChannels_nodup sc j a

/-- Joints that are never a pair's destination keep all their channels. -/
theorem transferPairs_anim_not_dest (ps : List (String × String)) :
    ∀ (sc : Scene) (j a : String), (∀ p ∈ ps, p.2 ≠ j) →
    (transferPairs sc ps).anim j a = sc.anim j a := by
  induction ps with
  | nil => intro sc j a _; rfl
  | cons p rest ih =>
    intro sc j a h
    obtain ⟨s, d⟩ := p
    rw [transferPairs, ih _ _ _ (fun q hq => h q (List.mem_cons_of_mem _ hq)),
      transferJoint_anim]
    have hd : d ≠ j := h (s, d) (List.mem_cons_self _ _)
    have hjd : ¬ j = d := fun hc => hd hc.symm
    simp [hjd]

/-- Channels outside the six tracked ones are never written by the
per-channel loop. -/
theorem transferPairs_anim_not_six (ps : List (String × String)) :
    ∀ (sc : Scene) (j a : String), a ∉ sixChannels →
    (transferPairs sc ps).anim j a = sc.anim j a := by
  induction ps with
  | nil => intro sc j a _; rfl
  | cons p rest ih =>
    intro sc j a ha
    obtain ⟨s, d⟩ := p
    rw [transferPairs, ih _ _ _ ha, transferJoint_anim]
    simp [ha]

/-- The value a pair's destination ends up with, provided destinations are
pairwise distinct and no destination doubles as a source: on each of the
six channels the source's keys replace the destination's iff the source has
any, read from the original scene. -/
theorem transferPairs_anim_dest (ps : List (String × String)) :
    ∀ (sc : Scene) (s d a : String), (s, d) ∈ ps →
    (ps.map Prod.snd).Nodup →
    (∀ p ∈ ps, ∀ q ∈ ps, p.2 ≠ q.1) →
    (transferPairs sc ps).anim d a =
      if a ∈ sixChannels ∧ sc.anim s a ≠ [] then sc.anim s a
      else sc.anim d a := by
  induction ps with
  | nil => intro sc s d a hmem; simp at hmem
  | cons p rest ih =>
    intro sc s d a hmem hnd hns
    obtain ⟨s0, d0⟩ := p
    have hnd' : (rest.map Prod.snd).Nodup := (List.nodup_cons.mp hnd).2
    have hd0 : d0 ∉ rest.map Prod.snd := (List.nodup_cons.mp hnd).1
    rcases List.mem_cons.mp hmem with heq | hmem'
    · injection heq with hs hd
      subst hs; subst hd
      rw [transferPairs,
        transferPairs_anim_not_dest rest _ _ _
          (fun q hq hc => hd0 (by rw [← hc]; exact List.mem_map_of_mem Prod.snd hq)),
        transferJoint_anim]
      simp
    · have hdne : d ≠ d0 := by
        intro hc
        exact hd0 (hc ▸ List.mem_map_of_mem Prod.snd hmem')
      have hsne : d0 ≠ s := by
        exact hns (s0, d0) (List.mem_cons_self _ _) (s, d)
          (List.mem_cons_of_mem _ hmem')
      rw [transferPairs,
        ih _ s d a hmem' hnd'
          (fun p hp q hq => hns p (List.mem_cons_of_mem _ hp) q
            (List.mem_cons_of_mem _ hq))]
      rw [transferJoint_anim, transferJoint_anim]
      have h1 : ¬ s = d0 := fun hc => hsne hc.symm
      simp [hdne, h1]

/-- Congruence: the transfer loop reads nothing but `anim`, so two scenes
with the same curves produce the same curves. -/
theorem transferAttrs_anim_congr (s d : String) (l : List String) :
    ∀ (sc₁ sc₂ : Scene), (∀ j a, sc₁.anim j a = sc₂.anim j a) →
    ∀ j a, (transferAttrs sc₁ s d l).anim j a =
      (transferAttrs sc₂ s d l).anim j a := by
  induction l with
  | nil => intro sc₁ sc₂ h j a; exact h j a
  | cons b rest ih =>
    intro sc₁ sc₂ h j a
    rw [transferAttrs, transferAttrs]
    refine ih _ _ ?_ j a
    intro j' a'
    rw [transferAttr_anim, transferAttr_anim, h s b, h j' a']

theorem transferPairs_anim_congr (ps : List (String × String)) :
    ∀ (sc₁ sc₂ : Scene), (∀ j a, sc₁.anim j a = sc₂.anim j a) →
    ∀ j a, (transferPairs sc₁ ps).anim j a = (transferPairs sc₂ ps).anim j a := by
  induction ps with
  | nil => intro sc₁ sc₂ h j a; exact h j a
  | cons p rest ih =>
    intro sc₁ sc₂ h j a
    obtain ⟨s, d⟩ := p
    rw [transferPairs, transferPairs]
    exact ih _ _ (transferAttrs_anim_congr s d sixChannels sc₁ sc₂ h) j a

/-- Running the loop on a scene where every matched channel has already
been transferred changes nothing. -/
theorem transferPairs_anim_id (ps : List (String × String)) :
    ∀ (sc : Scene),
    (∀ p ∈ ps, ∀ a ∈ sixChannels, sc.anim p.1 a ≠ [] →
      sc.anim p.2 a = sc.anim p.1 a) →
    ∀ j a, (transferPairs sc ps).anim j a = sc.anim j a := by
  induction ps with
  | nil => intro sc _ j a; rfl
  | cons p rest ih =>
    intro sc h j a
    obtain ⟨s, d⟩ := p
    have hjd : ∀ j' a', (transferJoint sc s d).anim j' a' = sc.anim j' a' := by
      intro j' a'
      rw [transferJoint_anim]
      by_cases hc : j' = d ∧ a' ∈ sixChannels ∧ sc.anim s a' ≠ []
      · rw [if_pos hc, hc.1]
        exact (h (s, d) (List.mem_cons_self _ _) a' hc.2.1 hc.2.2).symm
      · rw [if_neg hc]
    rw [transferPairs, transferPairs_anim_congr rest _ sc hjd j a]
    exact ih sc (fun q hq => h q (List.mem_cons_of_mem _ hq)) j a

theorem mem_matchedPairs (src_dict rig_dict : List (String × String))
    (s d : String) (h : (s, d) ∈ matchedPairs src_dict rig_dict) :
    ∃ e ∈ src_dict, e.2 = s ∧ alookup rig_dict e.1 = some d := by
  rw [matchedPairs, List.mem_filterMap] at h
  obtain ⟨e, he, hm⟩ := h
  refine ⟨e, he, ?_⟩
  cases hl : alookup rig_dict e.1 with
  | none => rw [hl] at hm; simp at hm
  | some d' =>
    rw [hl] at hm
    simp only [Option.map_some', Option.some.injEq, Prod.mk.injEq] at hm
    refine ⟨hm.1, ?_⟩
    rw [← hm.2]

/-- Each matched pair consists of a source joint from the source inventory
and a destination joint from the rig inventory with the same match key. -/
theorem matchedPairs_buildDict_mem (f : String → String) (I R : List String)
    (s d : String)
    (h : (s, d) ∈ matchedPairs (buildDict f I) (buildDict f R)) :
    s ∈ I ∧ d ∈ R ∧ f d = f s := by
  obtain ⟨e, he, hes, hl⟩ := mem_matchedPairs _ _ s d h
  have h1 := buildDict_entry f I e he
  have h2 := alookup_buildDict_mem f R e.1 d hl
  subst hes
  exact ⟨h1.2, h2.2, by rw [h2.1, h1.1]⟩

theorem matchedPairs_snd_nodup_aux (f : String → String)
    (rig_dict : List (String × String))
    (hrd : ∀ k d, alookup rig_dict k = some d → f d = k) :
    ∀ src_dict : List (String × String),
    (∀ e ∈ src_dict, e.1 = f e.2) → ((src_dict.map Prod.fst)).Nodup →
    ((matchedPairs src_dict rig_dict).map Prod.snd).Nodup := by
  intro sd
  induction sd with
  | nil => intro _ _; simp [matchedPairs]
  | cons e sd' ih =>
    intro hent hnd
    have hnd' : (sd'.map Prod.fst).Nodup := (List.nodup_cons.mp (by simpa using hnd)).2
    have hkey : e.1 ∉ sd'.map Prod.fst := (List.nodup_cons.mp (by simpa using hnd)).1
    rw [matchedPairs, List.filterMap_cons]
    cases hl : alookup rig_dict e.1 with
    | none =>
      exact ih (fun e' he' => hent e' (List.mem_cons_of_mem _ he')) hnd'
    | some d =>
      simp only [Option.map_some', List.map_cons]
      rw [List.nodup_cons]
      constructor
      · intro hmem
        rw [List.mem_map] at hmem
        obtain ⟨⟨s', d'⟩, hp, hd'⟩ := hmem
        simp only at hd'
        subst hd'
        obtain ⟨e', he', _, hl'⟩ := mem_matchedPairs sd' rig_dict s' d' hp
        have k1 : f d' = e.1 := hrd e.1 d' hl
        have k2 : f d' = e'.1 := hrd e'.1 d' hl'
        exact hkey (by rw [← k1, k2]; exact List.mem_map_of_mem Prod.fst he')
      · exact ih (fun e' he' => hent e' (List.mem_cons_of_mem _ he')) hnd'

/-- Destinations of the matched pairs of two index snapshots are pairwise
distinct: the rig index maps each key to one joint. -/
theorem matchedPairs_snd_nodup (f : String → String) (I R : List String) :
    ((matchedPairs (buildDict f I) (buildDict f R)).map Prod.snd).Nodup :=
  matchedPairs_snd_nodup_aux f (buildDict f R)
    (fun k d h => (alookup_buildDict_mem f R k d h).1)
    (buildDict f I)
    (fun e he => (buildDict_entry f I e he).1)
    (buildDict_keys_nodup f I)

/-! ### The two transfer entry points -/

theorem copyAllKeys_anim (sc : Scene) (src dst j a : String) :
    (copyAllKeys sc src dst).anim j a =
      if j = dst ∧ a ∈ sc.attrs ∧ sc.anim src a ≠ [] then sc.anim src a
      else sc.anim j a := rfl

theorem keyframeCountAll_pos (sc : Scene) (j a : String) (ha : a ∈ sc.attrs)
    (hk : sc.anim j a ≠ []) : 0 < keyframeCountAll sc j := by
  have hmem : (sc.anim j a).length ∈
      sc.attrs.map (fun a => (sc.anim j a).length) :=
    List.mem_map_of_mem _ ha
  have hle : (sc.anim j a).length ≤ keyframeCountAll sc j :=
    List.single_le_sum (fun _ _ => Nat.zero_le _) _ hmem
  exact Nat.lt_of_lt_of_le (List.length_pos.mpr hk) hle

theorem transfer_animation_eq (sc : Scene) (ir rr : String)
    (h : sc.objExists ir ∧ sc.objExists rr) :
    transfer_animation sc ir rr =
      transferPairs
        (if 0 < keyframeCountAll sc ir then copyAllKeys sc ir rr else sc)
        (matchedPairs (buildDict localNameKey (jointInventory sc ir))
          (buildDict localNameKey (jointInventory sc rr))) := by
  unfold transfer_animation
  rw [if_neg (not_not_intro h)]
  rfl

theorem root_mem_jointInventory (sc : Scene) (root : String) :
    root ∈ jointInventory sc root := by
  simp [jointInventory]

/-- When the two inventories are disjoint, no pair's destination is any
pair's source. -/
theorem matchedPairs_no_dest_source (f : String → String) (I R : List String)
    (hdisj : ∀ j ∈ R, j ∉ I) :
    ∀ p ∈ matchedPairs (buildDict f I) (buildDict f R),
    ∀ q ∈ matchedPairs (buildDict f I) (buildDict f R), p.2 ≠ q.1 := by
  intro p hp q hq
  obtain ⟨s, d⟩ := p
  obtain ⟨s', d'⟩ := q
  intro hc
  obtain ⟨_, hdR, _⟩ := matchedPairs_buildDict_mem f I R s d hp
  obtain ⟨hsI, _, _⟩ := matchedPairs_buildDict_mem f I R s' d' hq
  simp only at hc
  exact hdisj d hdR (hc ▸ hsI)

/-- Running the matched-pair loop of two disjoint inventories twice is the
same as running it once. -/
theorem transferPairs_idem (f : String → String) (sc : Scene)
    (I R : List String) (hdisj : ∀ j ∈ R, j ∉ I) (j a : String) :
    (transferPairs
        (transferPairs sc (matchedPairs (buildDict f I) (buildDict f R)))
        (matchedPairs (buildDict f I) (buildDict f R))).anim j a =
      (transferPairs sc
        (matchedPairs (buildDict f I) (buildDict f R))).anim j a := by
  have hnd := matchedPairs_snd_nodup f I R
  have hns := matchedPairs_no_dest_source f I R hdisj
  apply transferPairs_anim_id
  intro p hp b hb hne
  obtain ⟨s, d⟩ := p
  obtain ⟨hsI, hdR, _⟩ := matchedPairs_buildDict_mem f I R s d hp
  have hsrc : ∀ c, (transferPairs sc
      (matchedPairs (buildDict f I) (buildDict f R))).anim s c = sc.anim s c := by
    intro c
    apply transferPairs_anim_not_dest
    intro q hq hc
    obtain ⟨sq, dq⟩ := q
    obtain ⟨_, hq2, _⟩ := matchedPairs_buildDict_mem f I R sq dq hq
    simp only at hc
    exact hdisj s (hc ▸ hq2) hsI
  have hdst := transferPairs_anim_dest _ sc s d b hp hnd hns
  simp only at hne ⊢
  rw [hsrc b] at hne
  rw [hsrc b, hdst, if_pos ⟨hb, hne⟩]

/-! ## Claim theorems -/

/-- **C9.** Within one hierarchy index, the match keys are pairwise
distinct, so every key maps to exactly one joint reference; on a key
collision inside one hierarchy the joint seen last during traversal wins
(the lookup returns the last joint of the traversal whose key matches),
and the index is a total function of the joint list — no error. -/
theorem claim_C9 {κ α : Type} [DecidableEq κ] (f : α → κ) (l : List α)
    (k : κ) :
    ((buildDict f l).map Prod.fst).Nodup ∧
    alookup (buildDict f l) k = (l.filter (fun x => f x = k)).getLast? :=
  ⟨buildDict_keys_nodup f l, alookup_buildDict f l k⟩

/-- **C2 counterexample.** The claim says the match key under
`normalize_namespace=true` is the joint's local name with its leading
namespace segment stripped.  The code computes `split(":")[-1]` of the
joint's full DAG path: for the un-namespaced joint at path `|RigA|Hand`
the code's key is the whole path `|RigA|Hand`, while the claim's rule
gives local name `Hand`. -/
theorem claim_C2_counterexample :
    remove_namespace "|RigA|Hand" = "|RigA|Hand" ∧
    specMatchKeyTrue "|RigA|Hand" = "Hand" ∧
    remove_namespace "|RigA|Hand" ≠ specMatchKeyTrue "|RigA|Hand" := by
  refine ⟨?_, ?_, ?_⟩ <;> decide

/-- **C2 amended.** The match key is computed from the joint's full path:
with `normalize_namespace=false` it is the last `|`-separated segment (the
local name, namespace prefix included); with `true` it is the substring
after the last `:` of the full path.  Hence any two joints whose paths end
in `:<name>` — such as `ns1:Hand` and `ns2:Hand` — match each other under
`true` (both keys are `<name>`) and do not match under `false`; but a
joint with no `:` anywhere in its path keeps its entire path as key. -/
theorem claim_C2_amended (ns1 ns2 n : List Char)
    (hn : ':' ∉ n) (hp1 : '|' ∉ ns1) (hp2 : '|' ∉ ns2) (hpn : '|' ∉ n)
    (hne : ns1 ≠ ns2) :
    remove_namespace (String.mk (ns1 ++ ':' :: n)) = String.mk n ∧
    remove_namespace (String.mk (ns2 ++ ':' :: n)) = String.mk n ∧
    localNameKey (String.mk (ns1 ++ ':' :: n)) ≠
      localNameKey (String.mk (ns2 ++ ':' :: n)) ∧
    ∀ p : List Char, ':' ∉ p → remove_namespace (String.mk p) = String.mk p := by
  refine ⟨?_, ?_, ?_, ?_⟩
  · show String.mk (splitLast ':' (ns1 ++ ':' :: n)) = String.mk n
    rw [splitLast_append_sep, splitLast_of_not_mem _ _ hn]
  · show String.mk (splitLast ':' (ns2 ++ ':' :: n)) = String.mk n
    rw [splitLast_append_sep, splitLast_of_not_mem _ _ hn]
  · intro hc
    have m1 : '|' ∉ ns1 ++ ':' :: n := by
      simp only [List.mem_append, List.mem_cons]
      push_neg
      exact ⟨hp1, by decide, hpn⟩
    have m2 : '|' ∉ ns2 ++ ':' :: n := by
      simp only [List.mem_append, List.mem_cons]
      push_neg
      exact ⟨hp2, by decide, hpn⟩
    have e1 : localNameKey (String.mk (ns1 ++ ':' :: n)) =
        String.mk (ns1 ++ ':' :: n) := by
      show String.mk (splitLast '|' (ns1 ++ ':' :: n)) = _
      rw [splitLast_of_not_mem _ _ m1]
    have e2 : localNameKey (String.mk (ns2 ++ ':' :: n)) =
        String.mk (ns2 ++ ':' :: n) := by
      show String.mk (splitLast '|' (ns2 ++ ':' :: n)) = _
      rw [splitLast_of_not_mem _ _ m2]
    rw [e1, e2] at hc
    have hdata : ns1 ++ ':' :: n = ns2 ++ ':' :: n := congrArg String.data hc
    exact hne (List.append_cancel_right hdata)
  · intro p hp
    show String.mk (splitLast ':' p) = String.mk p
    rw [splitLast_of_not_mem _ _ hp]

theorem claim_C2_amended_witness :
    remove_namespace "ns1:Hand" = "Hand" ∧
    remove_namespace "ns2:Hand" = "Hand" ∧
    localNameKey "ns1:Hand" ≠ localNameKey "ns2:Hand" := by
  have h := claim_C2_amended "ns1".data "ns2".data "Hand".data
    (by decide) (by decide) (by decide) (by decide) (by decide)
  exact ⟨h.1, h.2.1, h.2.2.1⟩

/-- **C3 counterexample.** The claim says the returned root is a new joint
with no parent *in the difference set*.  The code requires a new joint
with no parent at all: with `before = [A]` and scene `A ⊢ B` (new joint
`B` parented under pre-existing `A`), `B` is a new joint whose parent is
not in the difference set, yet the code signals NotFound (`none`). -/
theorem claim_C3_counterexample :
    get_new_root_joint ["A"] importDiffScene = none ∧
    newJointsOf ["A"] importDiffScene = ["B"] ∧
    specRootCandidate ["A"] importDiffScene "B" = true := by
  refine ⟨?_, ?_, ?_⟩ <;> decide

/-- **C3 amended.** `get_new_root_joint` computes the difference between
the joint inventories before and after the import; any root it returns is
a new joint with *no parent at all in the scene*; and it signals NotFound
(`none`) exactly when there are zero new joints or no completely
parent-less joint among them. -/
theorem claim_C3_amended (before : List String) (joints : List SceneJoint) :
    (∀ r, get_new_root_joint before joints = some r →
      r ∈ newJointsOf before joints ∧ parentOf joints r = none) ∧
    (get_new_root_joint before joints = none ↔
      ∀ j ∈ newJointsOf before joints, parentOf joints j ≠ none) := by
  have heq : get_new_root_joint before joints =
      if (newJointsOf before joints).isEmpty then none
      else (newJointsOf before joints).find?
        (fun j => parentOf joints j = none) := rfl
  constructor
  · intro r hr
    rw [heq] at hr
    by_cases he : (newJointsOf before joints).isEmpty
    · rw [if_pos he] at hr
      exact absurd hr (by simp)
    · rw [if_neg he] at hr
      refine ⟨List.mem_of_find?_eq_some hr, ?_⟩
      have := List.find?_some hr
      simpa using this
  · rw [heq]
    by_cases he : (newJointsOf before joints).isEmpty
    · rw [if_pos he]
      have hnil : newJointsOf before joints = [] := by
        simpa using he
      constructor
      · intro _ j hj
        rw [hnil] at hj
        simp at hj
      · intro _
        rfl
    · rw [if_neg he]
      constructor
      · intro hn j hj
        have := List.find?_eq_none.mp hn j hj
        simpa using this
      · intro h
        apply List.find?_eq_none.mpr
        intro j hj
        simpa using h j hj

theorem claim_C3_amended_witness :
    "A" ∈ newJointsOf [] importDiffScene ∧
    parentOf importDiffScene "A" = none :=
  (claim_C3_amended [] importDiffScene).1 "A" (by decide)

/-- **C10.** `transfer_animation` returns, after a warning, without
touching the scene whenever the imported root or the rig root does not
exist; `transfer_animation_ignore_namespace` performs no such guard — its
effect on the animation curves is unchanged under an arbitrary replacement
of the scene's `objExists` oracle. -/
theorem claim_C10 :
    (∀ (sc : Scene) (ir rr : String),
      ¬ (sc.objExists ir ∧ sc.objExists rr) →
      transfer_animation sc ir rr = sc) ∧
    (∀ (sc : Scene) (sr tr : String) (e : String → Bool) (j a : String),
      (transfer_animation_ignore_namespace
          { sc with objExists := e } sr tr).anim j a =
        (transfer_animation_ignore_namespace sc sr tr).anim j a) := by
  constructor
  · intro sc ir rr h
    unfold transfer_animation
    rw [if_pos h]
  · intro sc sr tr e j a
    exact transferPairs_anim_congr
      (matchedPairs (buildDict remove_namespace (jointInventory sc sr))
        (buildDict remove_namespace (jointInventory sc tr)))
      { sc with objExists := e } sc (fun _ _ => rfl) j a

theorem claim_C10_witness :
    transfer_animation guardScene "Imp" "Rig" = guardScene :=
  claim_C10.1 guardScene "Imp" "Rig" (by decide)

/-- **C4.** In the imported-to-rig-A transfer, when the imported root has
at least one keyframe, its whole keyed channel set — here a channel
outside the six tracked ones — is copied onto the rig root, replacing its
keys; and since the per-channel loop only ever writes the six tracked
channels, the composite copy is what delivers that channel.  The
rig-A-to-rig-B transfer performs no composite root copy: it never writes
any channel outside the six, so such a channel never reaches rig B. -/
theorem claim_C4 (sc : Scene) (ir rr a : String)
    (hex : sc.objExists ir ∧ sc.objExists rr)
    (ha : a ∈ sc.attrs) (hkeys : sc.anim ir a ≠ []) (hsix : a ∉ sixChannels) :
    (transfer_animation sc ir rr).anim rr a = sc.anim ir a ∧
    (∀ (sc' : Scene) (sr tr j : String),
      (transfer_animation_ignore_namespace sc' sr tr).anim j a =
        sc'.anim j a) := by
  constructor
  · rw [transfer_animation_eq sc ir rr hex,
      if_pos (keyframeCountAll_pos sc ir a ha hkeys),
      transferPairs_anim_not_six _ _ _ _ hsix, copyAllKeys_anim]
    simp [ha, hkeys]
  · intro sc' sr tr j
    exact transferPairs_anim_not_six _ _ _ _ hsix

theorem claim_C4_witness :
    (transfer_animation rootMotionScene "Imp" "Rig").anim "Rig" "customAttr"
        = [(0, 7)] ∧
    (transfer_animation_ignore_namespace rootMotionScene "Imp" "Rig").anim
        "Rig" "customAttr" = [] := by
  have h := claim_C4 rootMotionScene "Imp" "Rig" "customAttr"
    (by decide) (by decide) (by decide) (by decide)
  constructor
  · rw [h.1]
    decide
  · rw [h.2 rootMotionScene "Imp" "Rig" "Rig"]
    decide

/-- **C6.** For a matched pair of two disjoint hierarchies and a tracked
channel on which the matched source joint has zero keys, the transfer
leaves the destination joint's channel — pre-existing keys included —
untouched.  For the imported-to-rig-A transfer the same holds, provided
the root-motion composite copy does not independently write that channel
of the rig root (when the destination is the rig root itself, the imported
root must also be key-less on the channel, matching C4's special case). -/
theorem claim_C6 :
    (∀ (sc : Scene) (sr tr s d a : String),
      a ∈ sixChannels →
      (∀ j ∈ jointInventory sc tr, j ∉ jointInventory sc sr) →
      (s, d) ∈ matchedPairs
        (buildDict remove_namespace (jointInventory sc sr))
        (buildDict remove_namespace (jointInventory sc tr)) →
      sc.anim s a = [] →
      (transfer_animation_ignore_namespace sc sr tr).anim d a =
        sc.anim d a) ∧
    (∀ (sc : Scene) (ir rr s d a : String),
      a ∈ sixChannels →
      (∀ j ∈ jointInventory sc rr, j ∉ jointInventory sc ir) →
      (s, d) ∈ matchedPairs
        (buildDict localNameKey (jointInventory sc ir))
        (buildDict localNameKey (jointInventory sc rr)) →
      sc.anim s a = [] →
      (d = rr → sc.anim ir a = []) →
      (transfer_animation sc ir rr).anim d a = sc.anim d a) := by
  constructor
  · intro sc sr tr s d a _ hdisj hp hempty
    have hnd := matchedPairs_snd_nodup remove_namespace
      (jointInventory sc sr) (jointInventory sc tr)
    have hns := matchedPairs_no_dest_source remove_namespace
      (jointInventory sc sr) (jointInventory sc tr) hdisj
    have h := transferPairs_anim_dest _ sc s d a hp hnd hns
    show (transferPairs sc
        (matchedPairs (buildDict remove_namespace (jointInventory sc sr))
          (buildDict remove_namespace (jointInventory sc tr)))).anim d a =
      sc.anim d a
    rw [h, if_neg (fun hc => hc.2 hempty)]
  · intro sc ir rr s d a _ hdisj hp hempty hroot
    by_cases hg : sc.objExists ir ∧ sc.objExists rr
    · rw [transfer_animation_eq sc ir rr hg]
      obtain ⟨hsI, hdR, _⟩ := matchedPairs_buildDict_mem localNameKey
        (jointInventory sc ir) (jointInventory sc rr) s d hp
      have hsne : ¬ s = rr := fun hc =>
        hdisj s (hc ▸ root_mem_jointInventory sc rr) hsI
      have hs1 : ∀ (sc1 : Scene), sc1 =
          (if 0 < keyframeCountAll sc ir then copyAllKeys sc ir rr else sc) →
          sc1.anim s a = [] ∧ sc1.anim d a = sc.anim d a ∧
          sc1.attrs = sc.attrs ∧ sc1.descendants = sc.descendants := by
        intro sc1 hdef
        subst hdef
        by_cases hkc : 0 < keyframeCountAll sc ir
        · rw [if_pos hkc]
          refine ⟨?_, ?_, rfl, rfl⟩
          · rw [copyAllKeys_anim]
            simp [hsne, hempty]
          · rw [copyAllKeys_anim]
            by_cases hdr : d = rr
            · simp [hroot hdr]
            · simp [hdr]
        · rw [if_neg hkc]
          exact ⟨hempty, rfl, rfl, rfl⟩
      obtain ⟨he1, he2, _, _⟩ := hs1 _ rfl
      have hnd := matchedPairs_snd_nodup localNameKey
        (jointInventory sc ir) (jointInventory sc rr)
      have hns := matchedPairs_no_dest_source localNameKey
        (jointInventory sc ir) (jointInventory sc rr) hdisj
      rw [transferPairs_anim_dest _ _ s d a hp hnd hns,
        if_neg (fun hc => hc.2 he1), he2]
    · unfold transfer_animation
      rw [if_pos hg]

theorem claim_C6_witness :
    (transfer_animation_ignore_namespace skipScene "S" "T").anim
      "T|ns:H" "translateX" = [(3, 3)] := by
  have h := claim_C6.1 skipScene "S" "T" "S|ns:H" "T|ns:H" "translateX"
    (by decide) (by decide) (by decide) (by decide)
  rw [h]
  decide

/-- **C7.** The rig-A-to-rig-B transfer is idempotent on any two disjoint
hierarchies: a second run with an unchanged source hierarchy rewrites
every destination channel with the same data (replace semantics), so every
channel of every joint ends up exactly as after a single run. -/
theorem claim_C7 (sc : Scene) (sr tr : String)
    (hdisj : ∀ j ∈ jointInventory sc tr, j ∉ jointInventory sc sr)
    (j a : String) :
    (transfer_animation_ignore_namespace
        (transfer_animation_ignore_namespace sc sr tr) sr tr).anim j a =
      (transfer_animation_ignore_namespace sc sr tr).anim j a := by
  have hTT : transfer_animation_ignore_namespace
      (transfer_animation_ignore_namespace sc sr tr) sr tr =
      transferPairs
        (transferPairs sc
          (matchedPairs
            (buildDict remove_namespace (jointInventory sc sr))
            (buildDict remove_namespace (jointInventory sc tr))))
        (matchedPairs
          (buildDict remove_namespace (jointInventory sc sr))
          (buildDict remove_namespace (jointInventory sc tr))) := by
    show transferPairs
        (transferPairs sc
          (matchedPairs
            (buildDict remove_namespace (jointInventory sc sr))
            (buildDict remove_namespace (jointInventory sc tr))))
        (matchedPairs
          (buildDict remove_namespace
            ((transferPairs sc
              (matchedPairs
                (buildDict remove_namespace (jointInventory sc sr))
                (buildDict remove_namespace (jointInventory sc tr)))).descendants
                  sr ++ [sr]))
          (buildDict remove_namespace
            ((transferPairs sc
              (matchedPairs
                (buildDict remove_namespace (jointInventory sc sr))
                (buildDict remove_namespace (jointInventory sc tr)))).descendants
                  tr ++ [tr]))) = _
    rw [transferPairs_descendants]
    rfl
  rw [hTT]
  exact transferPairs_idem remove_namespace sc
    (jointInventory sc sr) (jointInventory sc tr) hdisj j a

theorem claim_C7_witness :
    (transfer_animation_ignore_namespace
        (transfer_animation_ignore_namespace idemScene "S" "T") "S" "T").anim
      "T|ns:H" "translateX" =
      (transfer_animation_ignore_namespace idemScene "S" "T").anim
        "T|ns:H" "translateX" :=
  claim_C7 idemScene "S" "T" (by decide) "T|ns:H" "translateX"

theorem lockQuery_unlock_aux (ns : List DagNode) (x : String) :
    ((((ns.map (fun n => if n.name = x then { n with locked := false } else n)).find?
      (fun n => n.name = x)).map (fun n => n.locked)).getD false) = false := by
  induction ns with
  | nil => rfl
  | cons n rest ih =>
    by_cases hn : n.name = x
    · simp [List.find?, hn]
    · simp only [List.map_cons, if_neg hn]
      rw [List.find?]
      simp only [hn, decide_False]
      exact ih

/-- After `unlockNode w x`, the node `x` no longer queries as locked. -/
theorem lockQuery_unlockNode (w : DelWorld) (x : String) :
    lockQuery (unlockNode w x) x = false :=
  lockQuery_unlock_aux w.nodes x

theorem objExistsD_unlockNode (w : DelWorld) (x y : String) :
    objExistsD (unlockNode w x) y = objExistsD w y := by
  unfold objExistsD unlockNode
  simp only [List.any_map]
  congr 1
  funext n
  by_cases hn : n.name = x <;> simp [hn]

theorem unlockNode_deleteWorks (w : DelWorld) (x : String) :
    (unlockNode w x).deleteWorks = w.deleteWorks := rfl

theorem objExistsD_of_findByUuid (w : DelWorld) (u : String) (nd : DagNode)
    (h : findByUuid w u = some nd) : objExistsD w nd.name = true := by
  have hmem := List.mem_of_find?_eq_some h
  simp only [objExistsD, List.any_eq_true]
  exact ⟨nd, hmem, by simp⟩

theorem deleteNode_of_not_works (w : DelWorld) (root : String)
    (h : w.deleteWorks = false) : deleteNode w root = w := by
  unfold deleteNode
  simp [h]

theorem objExistsD_deleteNode_self (w : DelWorld) (root : String)
    (h : w.deleteWorks = true) :
    objExistsD (deleteNode w root) root = false := by
  unfold deleteNode objExistsD
  simp only [h, if_pos]
  rw [List.any_eq_false]
  intro n hn
  rw [List.mem_filter] at hn
  simp only [decide_eq_true_eq] at hn
  intro hc
  simp only [decide_eq_true_eq] at hc
  exact hn.2 (by simp [inSubtree, hc])

/-- **C5 counterexample.** The claim says the transient id list is cleared
afterward.  When the first stored id resolves to no live node the code
returns from inside the `try` block before reaching
`imported_joint_uuids.clear()`, so the stale id list survives. -/
theorem claim_C5_counterexample :
    (delete_imported_skeleton staleState).2 = DelOutcome.rootNotFound ∧
    (delete_imported_skeleton staleState).1.imported_joint_uuids =
      ["u-missing"] := by
  refine ⟨?_, ?_⟩ <;> decide

/-- **C5 amended.** Cleanup resolves only the first captured id (the tail
of the id list never affects the scene effect or the outcome); when no
live node carries that id it returns early leaving the id list — contrary
to the claim — uncleared; when a node is found, any lock flag on it is
cleared before the delete, a node surviving the delete is reported as a
failure by a total function (no crash), a successful delete removes the
root, and in both of these cases the id list is cleared afterward. -/
theorem claim_C5_amended :
    (∀ (w : DelWorld) (u : String) (r r' : List String),
      (delete_imported_skeleton ⟨w, u :: r⟩).1.world =
        (delete_imported_skeleton ⟨w, u :: r'⟩).1.world ∧
      (delete_imported_skeleton ⟨w, u :: r⟩).2 =
        (delete_imported_skeleton ⟨w, u :: r'⟩).2) ∧
    (∀ (w : DelWorld) (u : String) (r : List String),
      findByUuid w u = none →
      delete_imported_skeleton ⟨w, u :: r⟩ =
        (⟨w, u :: r⟩, DelOutcome.rootNotFound)) ∧
    (∀ (w : DelWorld) (u : String) (r : List String) (nd : DagNode),
      findByUuid w u = some nd →
      (delete_imported_skeleton ⟨w, u :: r⟩).1.imported_joint_uuids = []) ∧
    (∀ (w : DelWorld) (u : String) (r : List String) (nd : DagNode),
      findByUuid w u = some nd → w.deleteWorks = false →
      (delete_imported_skeleton ⟨w, u :: r⟩).2 = DelOutcome.stillExists ∧
      lockQuery (delete_imported_skeleton ⟨w, u :: r⟩).1.world nd.name =
        false) ∧
    (∀ (w : DelWorld) (u : String) (r : List String) (nd : DagNode),
      findByUuid w u = some nd → w.deleteWorks = true →
      (delete_imported_skeleton ⟨w, u :: r⟩).2 = DelOutcome.deleted ∧
      objExistsD (delete_imported_skeleton ⟨w, u :: r⟩).1.world nd.name =
        false) := by
  refine ⟨?_, ?_, ?_, ?_, ?_⟩
  · intro w u r r'
    simp only [delete_imported_skeleton]
    cases findByUuid w u with
    | none => exact ⟨rfl, rfl⟩
    | some nd => exact ⟨rfl, rfl⟩
  · intro w u r h
    simp only [delete_imported_skeleton, h]
  · intro w u r nd h
    simp only [delete_imported_skeleton, h]
    split <;> split <;> rfl
  · intro w u r nd h hw
    have hw1 : (if lockQuery w nd.name then unlockNode w nd.name
        else w).deleteWorks = false := by
      split <;> simpa [unlockNode_deleteWorks]
    have hdel := deleteNode_of_not_works _ nd.name hw1
    have hex : objExistsD (if lockQuery w nd.name then unlockNode w nd.name
        else w) nd.name = true := by
      split
      · rw [objExistsD_unlockNode]
        exact objExistsD_of_findByUuid w u nd h
      · exact objExistsD_of_findByUuid w u nd h
    have hlock : lockQuery (if lockQuery w nd.name then unlockNode w nd.name
        else w) nd.name = false := by
      by_cases hlq : lockQuery w nd.name = true
      · rw [if_pos (by simp [hlq])]
        exact lockQuery_unlockNode w nd.name
      · rw [if_neg (by simp [hlq])]
        simpa using hlq
    simp only [delete_imported_skeleton, h, hdel, hex]
    simp [hex, hlock]
  · intro w u r nd h hw
    have hw1 : (if lockQuery w nd.name then unlockNode w nd.name
        else w).deleteWorks = true := by
      split <;> simpa [unlockNode_deleteWorks]
    have hex := objExistsD_deleteNode_self
      (if lockQuery w nd.name then unlockNode w nd.name else w) nd.name hw1
    simp only [delete_imported_skeleton, h, hex]
    simp [hex]

theorem claim_C5_amended_witness :
    (delete_imported_skeleton ⟨delWorld, ["u1", "u2"]⟩).2 =
      DelOutcome.deleted ∧
    objExistsD (delete_imported_skeleton ⟨delWorld, ["u1", "u2"]⟩).1.world
      "Root" = false := by
  have h := claim_C5_amended.2.2.2.2 delWorld "u1" ["u2"]
    ⟨"Root", none, "u1", true⟩ (by decide) (by decide)
  exact ⟨h.1, h.2⟩

theorem export_fbx_animation_ok (env : ExpEnv)
    (rr folder an pre suf : String) (h : env.setupRaises = false) :
    ∃ r, export_fbx_animation env rr folder an pre suf = Except.ok r := by
  unfold export_fbx_animation
  by_cases h1 : ¬ env.rigExists
  · rw [if_pos h1]; exact ⟨_, rfl⟩
  · rw [if_neg h1]
    by_cases h2 : env.exportJoints.isEmpty = true
    · rw [if_pos h2]; exact ⟨_, rfl⟩
    · rw [if_neg h2]
      by_cases h3 : (!env.folderExists && env.makedirsRaises) = true
      · rw [if_pos h3]; exact ⟨_, rfl⟩
      · rw [if_neg h3, if_neg (by simp [h])]
        by_cases h4 : env.fbxExportRaises = true
        · rw [if_pos h4]; exact ⟨_, rfl⟩
        · rw [if_neg h4]; exact ⟨_, rfl⟩

theorem processFile_ok (fe : FileEnv) (tgt folder an pre suf : String)
    (h1 : ∃ v, fe.importOutcome = Except.ok v)
    (h2 : fe.transfer1Raises = none) (h3 : fe.transfer2Raises = none)
    (h4 : fe.exp.setupRaises = false) :
    ∃ r, processFile fe tgt folder an pre suf = Except.ok r := by
  obtain ⟨v, hv⟩ := h1
  obtain ⟨r, hr⟩ := export_fbx_animation_ok fe.exp tgt folder an pre suf h4
  cases v with
  | none => exact ⟨none, by simp only [processFile, hv]⟩
  | some root => exact ⟨some r, by simp only [processFile, hv, h2, h3, hr]⟩

theorem runFbxFiles_ok (env : BatchEnv) (folder tgt pre suf : String) :
    ∀ fs : List String,
    (∀ f ∈ fs, (∃ v, (env.behav f).importOutcome = Except.ok v) ∧
      (env.behav f).transfer1Raises = none ∧
      (env.behav f).transfer2Raises = none ∧
      (env.behav f).exp.setupRaises = false) →
    ∃ l, runFbxFiles env folder tgt pre suf fs = Except.ok l ∧
      l.map Prod.fst = fs := by
  intro fs
  induction fs with
  | nil => intro _; exact ⟨[], rfl, rfl⟩
  | cons f rest ih =>
    intro h
    obtain ⟨hf1, hf2, hf3, hf4⟩ := h f (List.mem_cons_self _ _)
    obtain ⟨r, hr⟩ := processFile_ok (env.behav f) tgt folder
      (splitextRoot f) pre suf hf1 hf2 hf3 hf4
    obtain ⟨l, hl, hmap⟩ := ih (fun g hg => h g (List.mem_cons_of_mem _ hg))
    refine ⟨(f, r) :: l, ?_, by simp [hmap]⟩
    simp only [runFbxFiles, hr, hl]

theorem batch_process_fbx_eq (env : BatchEnv)
    (folder src tgt pre suf : String) :
    batch_process_fbx env folder src tgt pre suf =
      if ¬ env.sourceFolderExists then Except.ok []
      else if (env.listing.filter (fun f => lowerEndsWithFbx f)).isEmpty then
        Except.ok []
      else runFbxFiles env folder tgt pre suf
        (env.listing.filter (fun f => lowerEndsWithFbx f)) := rfl

/-- **C1 counterexample.** The claim says a failure while transferring one
file is caught at the per-file boundary and does not escape
`batch_process_fbx`.  With two input files where the first file's
transfer stage raises, the exception propagates out of the batch entry
point (the result is that very exception, so the second file is never
processed). -/
theorem claim_C1_counterexample :
    batch_process_fbx abortEnv "/out" "SRC" "TGT" = Except.error "boom" :=
  rfl

/-- **C1 amended.** Only the FBX-export call, the output-folder creation
and the body of `delete_imported_skeleton` are wrapped in `try`/`except`;
the batch loop has no per-file exception boundary.  Hence the batch
completes all files exactly when, for every listed `.fbx` file, the import
returns (with or without a root), neither transfer raises, and the
uncaught export-setup region does not raise — regardless of failures of
`os.makedirs`, of the `FBXExport` call or inside deletion; a failure in an
unguarded stage instead escapes `batch_process_fbx` (see the
counterexample). -/
theorem claim_C1_amended (env : BatchEnv) (folder src tgt pre suf : String)
    (hsrc : env.sourceFolderExists = true)
    (h : ∀ f ∈ env.listing.filter (fun f => lowerEndsWithFbx f),
      (∃ v, (env.behav f).importOutcome = Except.ok v) ∧
      (env.behav f).transfer1Raises = none ∧
      (env.behav f).transfer2Raises = none ∧
      (env.behav f).exp.setupRaises = false) :
    ∃ l, batch_process_fbx env folder src tgt pre suf = Except.ok l ∧
      l.map Prod.fst = env.listing.filter (fun f => lowerEndsWithFbx f) := by
  rw [batch_process_fbx_eq, if_neg (by simp [hsrc])]
  by_cases he : (env.listing.filter (fun f => lowerEndsWithFbx f)).isEmpty
  · have hnil : env.listing.filter (fun f => lowerEndsWithFbx f) = [] := by
      simpa using he
    exact ⟨[], by rw [if_pos he], by rw [hnil]; rfl⟩
  · obtain ⟨l, hl, hmap⟩ := runFbxFiles_ok env folder tgt pre suf _ h
    exact ⟨l, by rw [if_neg he]; exact hl, hmap⟩

theorem claim_C1_amended_witness :
    ∃ l, batch_process_fbx okBatchEnv "/out" "SRC" "TGT" = Except.ok l ∧
      l.map Prod.fst = ["walk.fbx", "run.FBX"] := by
  obtain ⟨l, hl, hmap⟩ := claim_C1_amended okBatchEnv "/out" "SRC" "TGT"
    "Anim_" "_Final" rfl
    (fun f hf => ⟨⟨some "ImpRoot", rfl⟩, rfl, rfl, rfl⟩)
  refine ⟨l, hl, ?_⟩
  rw [hmap]
  decide

theorem replaceBackslashes_data (l : List Char) (h : '\\' ∉ l) :
    l.map (fun c => if c = '\\' then '/' else c) = l := by
  induction l with
  | nil => rfl
  | cons c rest ih =>
    simp only [List.mem_cons, not_or] at h
    rw [List.map_cons, if_neg (fun hc => h.1 hc.symm), ih h.2]

theorem replaceBackslashes_eq_self (s : String) (h : '\\' ∉ s.data) :
    replaceBackslashes s = s := by
  unfold replaceBackslashes
  rw [replaceBackslashes_data s.data h]

theorem pyJoin_eq (a b : String) (hb : b.data.head? ≠ some '/')
    (ha : a ≠ "") (hsl : a.data.getLast? ≠ some '/') :
    pyJoin a b = a ++ "/" ++ b := by
  unfold pyJoin
  rw [if_neg hb, if_neg ha, if_neg hsl]

/-- **C8.** The batch's default prefix and suffix are `"Anim_"` and
`"_Final"`; and a successful export writes exactly one file, at
`<output_folder>/<prefix><animation_name><suffix>.fbx` where
`animation_name` is the input file's base name with the extension
stripped (`splitextRoot`), with the output folder created
(`madeDir = true`) exactly when it did not already exist.  The path
hypotheses say the folder name is absolute and normalized (fixed by
`os.path.abspath`), non-empty, without a trailing slash, the file-name
part does not start with a slash, and no backslash occurs anywhere. -/
theorem claim_C8 (env : ExpEnv) (rig_root folder f pre suf : String)
    (habs : env.abspathOf folder = folder)
    (hrig : env.rigExists = true)
    (hjoints : env.exportJoints ≠ [])
    (hmk : env.makedirsRaises = false)
    (hsetup : env.setupRaises = false)
    (hfbx : env.fbxExportRaises = false)
    (hne : folder ≠ "")
    (hsl : folder.data.getLast? ≠ some '/')
    (hname : (pre ++ splitextRoot f ++ suf ++ ".fbx").data.head? ≠ some '/')
    (hnb : '\\' ∉ (folder ++ "/" ++ (pre ++ splitextRoot f ++ suf ++
      ".fbx")).data) :
    (∀ (benv : BatchEnv) (efolder s t : String),
      batch_process_fbx benv efolder s t =
        batch_process_fbx benv efolder s t "Anim_" "_Final") ∧
    export_fbx_animation env rig_root folder (splitextRoot f) pre suf =
      Except.ok ⟨some (folder ++ "/" ++
        (pre ++ splitextRoot f ++ suf ++ ".fbx")), !env.folderExists,
        false⟩ := by
  constructor
  · intro benv efolder s t
    rfl
  · have hje : env.exportJoints.isEmpty = false := by
      cases henv : env.exportJoints with
      | nil => exact absurd henv hjoints
      | cons a l => rfl
    unfold export_fbx_animation
    rw [if_neg (by simp [hrig]), if_neg (by simp [hje]),
      if_neg (by simp [hmk]), if_neg (by simp [hsetup]),
      if_neg (by simp [hfbx]), habs,
      pyJoin_eq folder _ hname hne hsl, replaceBackslashes_eq_self _ hnb]

theorem claim_C8_witness :
    export_fbx_animation pathExpEnv "T" "/out" (splitextRoot "Walk.fbx")
      "Anim_" "_Final" =
      Except.ok ⟨some "/out/Anim_Walk_Final.fbx", true, false⟩ := by
  have h := (claim_C8 pathExpEnv "T" "/out" "Walk.fbx" "Anim_" "_Final"
    rfl rfl (by decide) rfl rfl rfl (by decide) (by decide) (by decide)
    (by decide)).2
  rw [h]
  rfl

end LousyBatchRetarget
